import Mathlib

/-!
Verification of the AWS Signature Version 4 signer of the amazon-sp-api
repository (`aws_sig_v4.py`, duplicated verbatim inside `amazon_sp_api.py`).

The Python signer is shallowly embedded: every definition below mirrors a
line or expression of `AWSSigV4.__init__` / `AWSSigV4.__call__`.  Strings are
Lean `String`s (Python compares strings by code points; the boolean
comparators below implement exactly that order on `String.data`), bytes are
`List Nat` (each entry < 256), header maps are association lists with the
case-insensitive semantics of `requests.structures.CaseInsensitiveDict`, and
the clock value captured by `datetime.datetime.utcnow()` is passed in as the
pair of already-formatted strings `amzdate` / `datestamp`, exactly the two
values the code derives from the single captured timestamp.
-/

/-! ## Basic string helpers -/

/-- Lowercase one character, as Python `str.lower` acts on the ASCII range
(header names in the signer are ASCII). -/
def lowerChar (c : Char) : Char :=
  if 65 ≤ c.toNat ∧ c.toNat ≤ 90 then Char.ofNat (c.toNat + 32) else c

/-- Model of Python `str.lower` (on the ASCII range). -/
def lowerStr (s : String) : String :=
  String.mk (s.data.map lowerChar)

/-- Model of Python `str.startswith`. -/
def strStarts (s p : String) : Bool :=
  p.data.isPrefixOf s.data

/-- Split a character list at every occurrence of `sep`; Python
`str.split(sep)` semantics (the empty string yields `[""]`). -/
def splitOnChar (sep : Char) : List Char → List String
  | [] => [""]
  | c :: cs =>
    let r := splitOnChar sep cs
    if c = sep then "" :: r
    else
      match r with
      | [] => [String.mk [c]]
      | h :: t => String.mk (c :: h.data) :: t

/-- Model of Python `str.split(sep)` for a one-character separator. -/
def pySplit (sep : Char) (s : String) : List String :=
  splitOnChar sep s.data

/-- Model of Python `sep.join(list)`. -/
def joinWith (sep : String) : List String → String
  | [] => ""
  | x :: xs =>
    match xs with
    | [] => x
    | _ :: _ => x ++ sep ++ joinWith sep xs

/-! ## Code-point lexicographic comparison

Python compares strings (and tuples of strings) lexicographically by code
point.  Core Lean's `String.ltb` does not reduce in the kernel, so the order
is implemented directly on `String.data`. -/

/-- Strict lexicographic order on character lists, by code point. -/
def ltList : List Char → List Char → Bool
  | [], [] => false
  | [], _ :: _ => true
  | _ :: _, [] => false
  | a :: as, b :: bs =>
    if a.toNat < b.toNat then true
    else if b.toNat < a.toNat then false
    else ltList as bs

/-- Reflexive lexicographic order on character lists, by code point. -/
def leList : List Char → List Char → Bool
  | [], _ => true
  | _ :: _, [] => false
  | a :: as, b :: bs =>
    if a.toNat < b.toNat then true
    else if b.toNat < a.toNat then false
    else leList as bs

/-- Python `s < t` on strings. -/
def strLt (s t : String) : Bool := ltList s.data t.data

/-- Python `s <= t` on strings. -/
def strLe (s t : String) : Bool := leList s.data t.data

/-- The order used by Python `sorted` on a list of strings, as a relation. -/
def strLeR (s t : String) : Prop := strLe s t = true

instance : DecidableRel strLeR := fun s t =>
  inferInstanceAs (Decidable (strLe s t = true))

/-- Python `sorted` on pairs of strings compares tuples lexicographically:
first components by `<`, ties decided by the second components. -/
def pairLeB (a b : String × String) : Bool :=
  if strLt a.1 b.1 then true
  else if strLt b.1 a.1 then false
  else strLe a.2 b.2

/-- The order used by Python `sorted` on a list of string pairs. -/
def qleR (a b : String × String) : Prop := pairLeB a b = true

instance : DecidableRel qleR := fun a b =>
  inferInstanceAs (Decidable (pairLeB a b = true))

/-! ## SHA-256 and HMAC-SHA256

Executable embedding of `hashlib.sha256` and `hmac.new(key, msg,
hashlib.sha256)` as used by the signer.  Bytes are `Nat`s below 256 and
32-bit words are `Nat`s reduced modulo `2 ^ 32` at every arithmetic step. -/

/-- Reduce to a 32-bit word. -/
def w32 (n : Nat) : Nat := n % 4294967296

/-- Rotate a 32-bit word right by `n`. -/
def rotr (n x : Nat) : Nat := w32 ((x >>> n) ||| (x <<< (32 - n)))

/-- Bitwise complement of a 32-bit word. -/
def compl32 (x : Nat) : Nat := x ^^^ 4294967295

/-- SHA-256 `Ch` function. -/
def chF (x y z : Nat) : Nat := (x &&& y) ^^^ (compl32 x &&& z)

/-- SHA-256 `Maj` function. -/
def majF (x y z : Nat) : Nat := (x &&& y) ^^^ (x &&& z) ^^^ (y &&& z)

/-- SHA-256 big sigma-0. -/
def bsig0 (x : Nat) : Nat := rotr 2 x ^^^ rotr 13 x ^^^ rotr 22 x

/-- SHA-256 big sigma-1. -/
def bsig1 (x : Nat) : Nat := rotr 6 x ^^^ rotr 11 x ^^^ rotr 25 x

/-- SHA-256 small sigma-0. -/
def ssig0 (x : Nat) : Nat := rotr 7 x ^^^ rotr 18 x ^^^ (x >>> 3)

/-- SHA-256 small sigma-1. -/
def ssig1 (x : Nat) : Nat := rotr 17 x ^^^ rotr 19 x ^^^ (x >>> 10)

/-- The 64 SHA-256 round constants of FIPS 180-4, written in decimal. -/
def sha256K : List Nat :=
  [1116352408, 1899447441, 3049323471, 3921009573, 961987163, 1508970993,
   2453635748, 2870763221, 3624381080, 310598401, 607225278, 1426881987,
   1925078388, 2162078206, 2614888103, 3248222580, 3835390401, 4022224774,
   264347078, 604807628, 770255983, 1249150122, 1555081692, 1996064986,
   2554220882, 2821834349, 2952996808, 3210313671, 3336571891, 3584528711,
   113926993, 338241895, 666307205, 773529912, 1294757372, 1396182291,
   1695183700, 1986661051, 2177026350, 2456956037, 2730485921, 2820302411,
   3259730800, 3345764771, 3516065817, 3600352804, 4094571909, 275423344,
   430227734, 506948616, 659060556, 883997877, 958139571, 1322822218,
   1537002063, 1747873779, 1955562222, 2024104815, 2227730452, 2361852424,
   2428436474, 2756734187, 3204031479, 3329325298]

/-- The SHA-256 working state: eight 32-bit registers. -/
structure Hash8 where
  a : Nat
  b : Nat
  c : Nat
  d : Nat
  e : Nat
  f : Nat
  g : Nat
  h : Nat

/-- The SHA-256 initial state of FIPS 180-4, written in decimal. -/
def sha256H0 : Hash8 :=
  ⟨1779033703, 3144134277, 1013904242, 2773480762,
   1359893119, 2600822924, 528734635, 1541459225⟩

/-- Extend a message schedule by one word. -/
def schedNext (w : List Nat) : Nat :=
  let l := w.length
  w32 (ssig1 (w.getD (l - 2) 0) + w.getD (l - 7) 0 + ssig0 (w.getD (l - 15) 0) + w.getD (l - 16) 0)

/-- Extend a message schedule by `n` words. -/
def schedGo : Nat → List Nat → List Nat
  | 0, w => w
  | n + 1, w => schedGo n (w ++ [schedNext w])

/-- The 64-word message schedule of one block. -/
def schedule (block : List Nat) : List Nat := schedGo 48 block

/-- One SHA-256 round, fed one round constant and one schedule word. -/
def sha256Round (kw : Nat × Nat) (s : Hash8) : Hash8 :=
  let t1 := w32 (s.h + bsig1 s.e + chF s.e s.f s.g + kw.1 + kw.2)
  let t2 := w32 (bsig0 s.a + majF s.a s.b s.c)
  ⟨w32 (t1 + t2), s.a, s.b, s.c, w32 (s.d + t1), s.e, s.f, s.g⟩

/-- Run the 64 SHA-256 rounds. -/
def sha256Rounds : List (Nat × Nat) → Hash8 → Hash8
  | [], s => s
  | kw :: rest, s => sha256Rounds rest (sha256Round kw s)

/-- Compress one 16-word block into the running state. -/
def sha256Compress (s0 : Hash8) (block : List Nat) : Hash8 :=
  let s := sha256Rounds (sha256K.zip (schedule block)) s0
  ⟨w32 (s0.a + s.a), w32 (s0.b + s.b), w32 (s0.c + s.c), w32 (s0.d + s.d),
   w32 (s0.e + s.e), w32 (s0.f + s.f), w32 (s0.g + s.g), w32 (s0.h + s.h)⟩

/-- Big-endian eight-byte encoding of a length in bits. -/
def be64 (n : Nat) : List Nat :=
  [(n >>> 56) % 256, (n >>> 48) % 256, (n >>> 40) % 256, (n >>> 32) % 256,
   (n >>> 24) % 256, (n >>> 16) % 256, (n >>> 8) % 256, n % 256]

/-- SHA-256 message padding. -/
def padMsg (m : List Nat) : List Nat :=
  m ++ [128] ++ List.replicate ((64 - (m.length + 9) % 64) % 64) 0 ++ be64 (8 * m.length)

/-- Pack bytes into big-endian 32-bit words. -/
def wordsOf : List Nat → List Nat
  | b0 :: b1 :: b2 :: b3 :: rest => ((b0 <<< 24) + (b1 <<< 16) + (b2 <<< 8) + b3) :: wordsOf rest
  | _ => []

/-- Split a byte list into 64-byte chunks; the fuel argument (instantiated
with the list length, an upper bound on the chunk count) makes the recursion
structural so that it reduces in the kernel. -/
def chunksGo : Nat → List Nat → List (List Nat)
  | _, [] => []
  | 0, _ :: _ => []
  | fuel + 1, x :: rest => (x :: rest).take 64 :: chunksGo fuel ((x :: rest).drop 64)

/-- Split a byte list into 64-byte chunks. -/
def chunks64 (l : List Nat) : List (List Nat) := chunksGo l.length l

/-- Big-endian four-byte encoding of a 32-bit word. -/
def wordBytes (w : Nat) : List Nat :=
  [(w >>> 24) % 256, (w >>> 16) % 256, (w >>> 8) % 256, w % 256]

/-- SHA-256 of a byte list, as the 32-byte digest. -/
def sha256 (m : List Nat) : List Nat :=
  let s := (chunks64 (padMsg m)).foldl (fun st b => sha256Compress st (wordsOf b)) sha256H0
  wordBytes s.a ++ wordBytes s.b ++ wordBytes s.c ++ wordBytes s.d ++
  wordBytes s.e ++ wordBytes s.f ++ wordBytes s.g ++ wordBytes s.h

/-- One lowercase hexadecimal digit. -/
def hexDigit (n : Nat) : Char :=
  if n < 10 then Char.ofNat (48 + n) else Char.ofNat (87 + n)

/-- Two lowercase hexadecimal digits of one byte. -/
def hexByte (b : Nat) : List Char :=
  [hexDigit (b / 16 % 16), hexDigit (b % 16)]

/-- Lowercase hexadecimal string of a byte list, as Python `.hexdigest()`. -/
def hexOfBytes (l : List Nat) : String :=
  String.mk (l.foldr (fun b acc => hexByte b ++ acc) [])

/-- Model of Python `hashlib.sha256(m).hexdigest()`. -/
def sha256hex (m : List Nat) : String := hexOfBytes (sha256 m)

/-- Model of `hmac.new(key, msg, hashlib.sha256).digest()`. -/
def hmacSha256 (key msg : List Nat) : List Nat :=
  let k0 := if 64 < key.length then sha256 key else key
  let k := k0 ++ List.replicate (64 - k0.length) 0
  sha256 ((k.map (fun b => b ^^^ 92)) ++ sha256 ((k.map (fun b => b ^^^ 54)) ++ msg))

/-- UTF-8 encoding of one code point. -/
def utf8Char (c : Nat) : List Nat :=
  if c < 128 then [c]
  else if c < 2048 then [192 ||| (c >>> 6), 128 ||| (c &&& 63)]
  else if c < 65536 then
    [224 ||| (c >>> 12), 128 ||| ((c >>> 6) &&& 63), 128 ||| (c &&& 63)]
  else
    [240 ||| (c >>> 18), 128 ||| ((c >>> 12) &&& 63), 128 ||| ((c >>> 6) &&& 63), 128 ||| (c &&& 63)]

/-- Model of Python `str.encode("utf-8")`. -/
def strBytes (s : String) : List Nat :=
  (s.data.map (fun c => utf8Char c.toNat)).flatten

/-! ## The signer data model

`AWSSigV4.__init__` stores five keyword arguments and validates three of
them; `AWSSigV4.__call__` mutates a `requests.models.PreparedRequest`.  The
request's URL is carried pre-parsed (`urlparse` pieces `hostname`, `path`,
`query`); its body is carried as its byte content (`str` bodies enter as
their UTF-8 bytes, matching the `.encode("utf-8")` branch of the code). -/

/-- State of a successfully constructed `AWSSigV4` signer. -/
structure SigV4State where
  service : String
  region : String
  aws_access_key_id : String
  aws_session_token : Option String
  aws_secret_access_key : String

/-- Python truthiness test `not x` for an optional string: `None` and the
empty string are falsy. -/
def optFalsy : Option String → Bool
  | none => true
  | some s => s == ""

/-- Model of `AWSSigV4.__init__`: stores the keyword arguments and raises
`KeyError` (modelled as `Except.error`) when the access key id or secret
access key is falsy, or when the region is `None`. -/
def AWSSigV4.mk? (service : String)
    (region aws_access_key_id aws_session_token aws_secret_access_key : Option String) :
    Except String SigV4State :=
  if optFalsy aws_access_key_id || optFalsy aws_secret_access_key then
    Except.error "AWS Access Key ID and Secret Access Key are required."
  else
    match region with
    | none => Except.error "Region is required."
    | some r =>
      Except.ok ⟨service, r, aws_access_key_id.getD "", aws_session_token,
        aws_secret_access_key.getD ""⟩

/-- A `PreparedRequest` as the signer consumes it. -/
structure Request where
  method : String
  host : String
  path : String
  query : String
  headers : List (String × String)
  body : Option (List Nat)

/-! ## Query-string canonicalization (lines 54-57 and 74 of `aws_sig_v4.py`) -/

/-- One component of the query, split at `=`; exactly two pieces are
required, otherwise the Python `dict(...)` constructor raises `ValueError`. -/
def pairOf (c : String) : Option (String × String) :=
  match pySplit '=' c with
  | [n, v] => some (n, v)
  | _ => none

/-- Split every component, failing if any one of them is not a pair. -/
def pairsOf : List String → Option (List (String × String))
  | [] => some []
  | c :: cs =>
    match pairOf c, pairsOf cs with
    | some p, some ps => some (p :: ps)
    | _, _ => none

/-- Model of lines 54-57: `dict(map(lambda i: i.split("="), query.split("&")))`
guarded by `len(query) > 0`, before the `dict` itself is built.  `none`
models the `ValueError` escaping the call. -/
def parseQuery (q : String) : Option (List (String × String)) :=
  if q.length > 0 then pairsOf (pySplit '&' q) else some []

/-- Update one key of a Python `dict` held as an insertion-ordered
association list: an existing key keeps its position and takes the new
value, a new key is appended. -/
def pyDictInsert : List (String × String) → String × String → List (String × String)
  | [], p => [p]
  | q :: rest, p => if q.1 == p.1 then p :: rest else q :: pyDictInsert rest p

/-- Build a Python `dict` from a pair list: later duplicate keys overwrite
earlier ones. -/
def pyDict (ps : List (String × String)) : List (String × String) :=
  ps.foldl pyDictInsert []

/-- The `sorted(query_string.items())` of line 74. -/
def sortedQuery (ps : List (String × String)) : List (String × String) :=
  List.insertionSort qleR (pyDict ps)

/-- The `"&".join(map(lambda p: "=".join(p), ...))` of line 74. -/
def joinPairs (l : List (String × String)) : String :=
  joinWith "&" (l.map (fun p => p.1 ++ "=" ++ p.2))

/-- The canonical query string of a raw URL query, `none` when signing dies
in the `dict(...)` constructor. -/
def canonical_query_string (q : String) : Option String :=
  (parseQuery q).map (fun ps => joinPairs (sortedQuery ps))

/-! ## Header map operations (`requests.structures.CaseInsensitiveDict`) -/

/-- Case-insensitive lookup, `request.headers[name]`. -/
def hLookup (hs : List (String × String)) (name : String) : Option String :=
  (hs.find? (fun p => lowerStr p.1 == lowerStr name)).map Prod.snd

/-- Case-insensitive membership, `name in request.headers`. -/
def hContains (hs : List (String × String)) (name : String) : Bool :=
  (hLookup hs name).isSome

/-- Case-insensitive update, `request.headers[name] = v`: an existing entry
keeps its position and takes the new key spelling and value, a new entry is
appended. -/
def hSet (hs : List (String × String)) (name v : String) : List (String × String) :=
  match hs with
  | [] => [(name, v)]
  | p :: rest =>
    if lowerStr p.1 == lowerStr name then (name, v) :: rest
    else p :: hSet rest name v

/-! ## Payload hash (lines 77-86) -/

/-- Model of the payload-hash branch: a GET request hashes the encoded empty
string; otherwise a truthy (non-empty) body is hashed as its bytes and an
absent or empty body hashes the empty byte string. -/
def payload_hash (method : String) (body : Option (List Nat)) : String :=
  if method == "GET" then sha256hex (strBytes "")
  else
    match body with
    | some b => if b.isEmpty then sha256hex [] else sha256hex b
    | none => sha256hex []

/-! ## Header setup (lines 60-68 and 87) -/

/-- Model of lines 60-68: default `Host`, `Content-Type` and `User-Agent`
headers, the optional session token header, and `X-AMZ-Date`. -/
def setupHeaders (st : SigV4State) (amzdate host : String)
    (hs0 : List (String × String)) : List (String × String) :=
  let hs1 := if hContains hs0 "Host" then hs0 else hSet hs0 "Host" host
  let hs2 :=
    if hContains hs1 "Content-Type" then hs1
    else hSet hs1 "Content-Type" "application/x-www-form-urlencoded; charset=utf-8"
  let hs3 :=
    if hContains hs2 "User-Agent" then hs2
    else hSet hs2 "User-Agent" "python-amazon-mws/0.0.1 (Language=Python)"
  let hs4 :=
    match st.aws_session_token with
    | some tok => if tok = "" then hs3 else hSet hs3 "x-amz-security-token" tok
    | none => hs3
  hSet hs4 "X-AMZ-Date" amzdate

/-- The full header map of the request after line 87 (`x-amz-content-sha256`
added), the map from which the signed headers are chosen. -/
def mutatedHeaders (st : SigV4State) (amzdate : String) (req : Request) :
    List (String × String) :=
  hSet (setupHeaders st amzdate req.host req.headers) "x-amz-content-sha256"
    (payload_hash req.method req.body)

/-! ## Canonical headers (lines 92-95) -/

/-- The `filter(lambda h: ..., map(lambda H: H.lower(), keys))` of line 92. -/
def selectedHeaderNames (hs : List (String × String)) : List String :=
  (hs.map (fun p => lowerStr p.1)).filter (fun h => strStarts h "x-amz-" || h == "host")

/-- The `headers_to_sign` of lines 92-93. -/
def headers_to_sign (hs : List (String × String)) : List String :=
  List.insertionSort strLeR (selectedHeaderNames hs)

/-- Case-insensitive header value used on line 94 (total, with a default that
is never taken because every selected name comes from the map's keys). -/
def hValue (hs : List (String × String)) (name : String) : String :=
  (hLookup hs name).getD ""

/-- The `canonical_headers` of line 94: one `name:value\n` line per selected
header, trailing newline after every line. -/
def canonical_headers (hs : List (String × String)) : String :=
  joinWith "" ((headers_to_sign hs).map (fun h => h ++ ":" ++ hValue hs h ++ "\n"))

/-- The `signed_headers` of line 95. -/
def signed_headers (hs : List (String × String)) : String :=
  joinWith ";" (headers_to_sign hs)

/-! ## Canonical request, string to sign, signature (lines 98-117) -/

/-- The `"\n".join([...])` of six components, line 98. -/
def canonical_request (method uri cqs ch sh ph : String) : String :=
  method ++ "\n" ++ uri ++ "\n" ++ cqs ++ "\n" ++ ch ++ "\n" ++ sh ++ "\n" ++ ph

/-- The `credential_scope` of line 102. -/
def credential_scope (datestamp region service : String) : String :=
  datestamp ++ "/" ++ region ++ "/" ++ service ++ "/aws4_request"

/-- The `string_to_sign` of line 103. -/
def string_to_sign (amzdate scope cr : String) : String :=
  "AWS4-HMAC-SHA256" ++ "\n" ++ amzdate ++ "\n" ++ scope ++ "\n" ++ sha256hex (strBytes cr)

/-- The signature of lines 107-114: the chained key derivation and the final
HMAC, hex encoded. -/
def signatureOf (secret datestamp region service sts : String) : String :=
  let key_date := hmacSha256 (strBytes ("AWS4" ++ secret)) (strBytes datestamp)
  let key_region := hmacSha256 key_date (strBytes region)
  let k_service := hmacSha256 key_region (strBytes service)
  let key_signing := hmacSha256 k_service (strBytes "aws4_request")
  hexOfBytes (hmacSha256 key_signing (strBytes sts))

/-- Modelled from the spec, section 4.2 step 3: the four chained
HMAC-SHA256 key-derivation steps `kDate`, `kRegion`, `kService`,
`kSigning`, each keyed by the prior result over a UTF-8-encoded message. -/
def specSigningKey (secretKey date region service : String) : List Nat :=
  let kDate := hmacSha256 (strBytes ("AWS4" ++ secretKey)) (strBytes date)
  let kRegion := hmacSha256 kDate (strBytes region)
  let kService := hmacSha256 kRegion (strBytes service)
  hmacSha256 kService (strBytes "aws4_request")

/-- Modelled from the spec, section 4.2 step 4: the signature is
`HMAC(kSigning, stringToSign)`, hex-encoded lowercase. -/
def specSignature (secretKey date region service stringToSign : String) : String :=
  hexOfBytes (hmacSha256 (specSigningKey secretKey date region service)
    (strBytes stringToSign))

/-- Model of `AWSSigV4.__call__` for one captured timestamp (`amzdate` and
`datestamp` are the two strftime renderings of the single utcnow value):
parses the query (a `ValueError` there is `none`), mutates the header map,
builds the canonical request, string to sign and signature, and returns the
request with the `Authorization` header set. -/
def signCall (st : SigV4State) (amzdate datestamp : String) (req : Request) :
    Option Request :=
  match canonical_query_string req.query with
  | none => none
  | some cqs =>
    let hs := mutatedHeaders st amzdate req
    let ph := payload_hash req.method req.body
    let ch := canonical_headers hs
    let sh := signed_headers hs
    let cr := canonical_request req.method req.path cqs ch sh ph
    let scope := credential_scope datestamp st.region st.service
    let sts := string_to_sign amzdate scope cr
    let sig := signatureOf st.aws_secret_access_key datestamp st.region st.service sts
    let auth := "AWS4-HMAC-SHA256 Credential=" ++ st.aws_access_key_id ++ "/" ++ scope ++
      ", SignedHeaders=" ++ sh ++ ", Signature=" ++ sig
    some { req with headers := hSet hs "Authorization" auth }

/-- The canonical request string assembled inside `signCall` (line 98),
exposed for reasoning about the URI path component. -/
def canonicalRequestOf (st : SigV4State) (amzdate : String) (req : Request) :
    Option String :=
  (canonical_query_string req.query).map (fun cqs =>
    let hs := mutatedHeaders st amzdate req
    canonical_request req.method req.path cqs (canonical_headers hs)
      (signed_headers hs) (payload_hash req.method req.body))

/-! ## Helper notions used by the statements -/

/-- Exact-key lookup in a Python `dict` association list. -/
def qlookup (l : List (String × String)) (n : String) : Option String :=
  (l.find? (fun p => p.1 == n)).map Prod.snd

/-- Value of the last occurrence of key `n` in a pair list. -/
def lastVal : List (String × String) → String → Option String
  | [], _ => none
  | p :: ps, n =>
    match lastVal ps n with
    | some v => some v
    | none => if p.1 == n then some p.2 else none

/-- A header list whose lowercased names are pairwise distinct — the
invariant every `CaseInsensitiveDict` maintains. -/
def ciNodup (hs : List (String × String)) : Prop :=
  (hs.map (fun p => lowerStr p.1)).Nodup

/-! ## Helper lemmas -/

theorem leList_total : ∀ as bs : List Char, leList as bs = true ∨ leList bs as = true
  | [], _ => Or.inl rfl
  | _ :: _, [] => Or.inr rfl
  | a :: as, b :: bs => by
    rcases Nat.lt_trichotomy a.toNat b.toNat with h | h | h
    · exact Or.inl (by simp [leList, h])
    · have h' : ¬ a.toNat < b.toNat := by omega
      have h'' : ¬ b.toNat < a.toNat := by omega
      rcases leList_total as bs with ih | ih
      · exact Or.inl (by simp [leList, h', h'', ih])
      · exact Or.inr (by simp [leList, h', h'', ih])
    · exact Or.inr (by simp [leList, h])

theorem leList_trans : ∀ as bs cs : List Char,
    leList as bs = true → leList bs cs = true → leList as cs = true
  | [], _, _, _, _ => rfl
  | _ :: _, [], _, h1, _ => by simp [leList] at h1
  | _ :: _, _ :: _, [], _, h2 => by simp [leList] at h2
  | a :: as, b :: bs, c :: cs, h1, h2 => by
    by_cases hab : a.toNat < b.toNat
    · by_cases hbc : b.toNat < c.toNat
      · have : a.toNat < c.toNat := by omega
        simp [leList, this]
      · by_cases hcb : c.toNat < b.toNat
        · simp [leList, hbc, hcb] at h2
        · have hbce : b.toNat = c.toNat := by omega
          have : a.toNat < c.toNat := by omega
          simp [leList, this]
    · by_cases hba : b.toNat < a.toNat
      · simp [leList, hab, hba] at h1
      · have habe : a.toNat = b.toNat := by omega
        simp [leList, hab, hba] at h1
        by_cases hbc : b.toNat < c.toNat
        · have : a.toNat < c.toNat := by omega
          simp [leList, this]
        · by_cases hcb : c.toNat < b.toNat
          · simp [leList, hbc, hcb] at h2
          · simp [leList, hbc, hcb] at h2
            have h1' : ¬ a.toNat < c.toNat := by omega
            have h2' : ¬ c.toNat < a.toNat := by omega
            simp [leList, h1', h2', leList_trans as bs cs h1 h2]

instance : IsTotal String strLeR := ⟨fun s t => leList_total s.data t.data⟩

instance : IsTrans String strLeR :=
  ⟨fun s t u h1 h2 => leList_trans s.data t.data u.data h1 h2⟩

theorem ltList_eq_of_not : ∀ as bs : List Char,
    ltList as bs = false → ltList bs as = false → as = bs
  | [], [], _, _ => rfl
  | [], _ :: _, h1, _ => by simp [ltList] at h1
  | _ :: _, [], _, h2 => by simp [ltList] at h2
  | a :: as, b :: bs, h1, h2 => by
    by_cases hab : a.toNat < b.toNat
    · simp [ltList, hab] at h1
    · by_cases hba : b.toNat < a.toNat
      · simp [ltList, hba] at h2
      · have hv : a = b := by
          apply Char.ext
          apply UInt32.ext
          have ha : a.toNat = a.val.toNat := rfl
          have hb : b.toNat = b.val.toNat := rfl
          omega
        simp [ltList, hab, hba] at h1 h2
        rw [hv, ltList_eq_of_not as bs h1 h2]

theorem ltList_trans : ∀ as bs cs : List Char,
    ltList as bs = true → ltList bs cs = true → ltList as cs = true
  | [], [], _, _, h2 => h2
  | [], _ :: _, [], _, h2 => by simp [ltList] at h2
  | [], _ :: _, _ :: _, _, _ => rfl
  | _ :: _, [], _, h1, _ => by simp [ltList] at h1
  | _ :: _, _ :: _, [], _, h2 => by simp [ltList] at h2
  | a :: as, b :: bs, c :: cs, h1, h2 => by
    by_cases hab : a.toNat < b.toNat
    · by_cases hbc : b.toNat < c.toNat
      · have : a.toNat < c.toNat := by omega
        simp [ltList, this]
      · by_cases hcb : c.toNat < b.toNat
        · simp [ltList, hbc, hcb] at h2
        · have : a.toNat < c.toNat := by omega
          simp [ltList, this]
    · by_cases hba : b.toNat < a.toNat
      · simp [ltList, hab, hba] at h1
      · simp [ltList, hab, hba] at h1
        by_cases hbc : b.toNat < c.toNat
        · have : a.toNat < c.toNat := by omega
          simp [ltList, this]
        · by_cases hcb : c.toNat < b.toNat
          · simp [ltList, hbc, hcb] at h2
          · simp [ltList, hbc, hcb] at h2
            have h1' : ¬ a.toNat < c.toNat := by omega
            have h2' : ¬ c.toNat < a.toNat := by omega
            simp [ltList, h1', h2', ltList_trans as bs cs h1 h2]

theorem ltList_false_of_le : ∀ as bs : List Char,
    leList as bs = true → ltList bs as = false ∨ as = bs
  | [], [], _ => Or.inr rfl
  | [], _ :: _, _ => Or.inl rfl
  | _ :: _, [], h => by simp [leList] at h
  | a :: as, b :: bs, h => by
    by_cases hab : a.toNat < b.toNat
    · have : ¬ b.toNat < a.toNat := by omega
      exact Or.inl (by simp [ltList, hab, this])
    · by_cases hba : b.toNat < a.toNat
      · simp [leList, hab, hba] at h
      · simp [leList, hab, hba] at h
        rcases ltList_false_of_le as bs h with ih | ih
        · exact Or.inl (by simp [ltList, hab, hba, ih])
        · have hv : a = b := by
            apply Char.ext
            apply UInt32.ext
            have ha : a.toNat = a.val.toNat := rfl
            have hb : b.toNat = b.val.toNat := rfl
            omega
          exact Or.inr (by rw [hv, ih])

theorem ltList_irrefl : ∀ as : List Char, ltList as as = false
  | [] => rfl
  | a :: as => by simp [ltList, ltList_irrefl as]

theorem le_of_ltList (as bs : List Char) (h : ltList as bs = true) : leList as bs = true := by
  induction as generalizing bs with
  | nil => rfl
  | cons a as ih =>
    cases bs with
    | nil => simp [ltList] at h
    | cons b bs =>
      by_cases hab : a.toNat < b.toNat
      · simp [leList, hab]
      · by_cases hba : b.toNat < a.toNat
        · simp [ltList, hab, hba] at h
        · simp [ltList, hab, hba] at h
          simp [leList, hab, hba, ih bs h]

theorem le_of_not_ltList (as bs : List Char) (h : ltList bs as = false) : leList as bs = true := by
  induction as generalizing bs with
  | nil => rfl
  | cons a as ih =>
    cases bs with
    | nil => simp [ltList] at h
    | cons b bs =>
      by_cases hab : a.toNat < b.toNat
      · simp [leList, hab]
      · by_cases hba : b.toNat < a.toNat
        · simp [ltList, hba] at h
        · simp [ltList, hab, hba] at h
          simp [leList, hab, hba, ih bs h]

theorem pairLe_total : ∀ a b : String × String, pairLeB a b = true ∨ pairLeB b a = true := by
  intro a b
  by_cases h1 : strLt a.1 b.1
  · exact Or.inl (by simp [pairLeB, h1])
  · by_cases h2 : strLt b.1 a.1
    · exact Or.inr (by simp [pairLeB, h2])
    · rcases leList_total a.2.data b.2.data with h | h
      · exact Or.inl (by simp [pairLeB, h1, h2, strLe, h])
      · exact Or.inr (by simp [pairLeB, h1, h2, strLe, h])

theorem strEq_of_not_lt {s t : String} (h1 : strLt s t = false) (h2 : strLt t s = false) :
    s = t :=
  String.ext (ltList_eq_of_not s.data t.data h1 h2)

theorem pairLe_trans : ∀ a b c : String × String,
    pairLeB a b = true → pairLeB b c = true → pairLeB a c = true := by
  intro a b c h1 h2
  by_cases hab : strLt a.1 b.1
  · by_cases hbc : strLt b.1 c.1
    · simp [pairLeB, ltList_trans _ _ _ hab hbc, strLt]
    · by_cases hcb : strLt c.1 b.1
      · simp [pairLeB, hbc, hcb] at h2
      · have : b.1 = c.1 := strEq_of_not_lt (by simpa using hbc) (by simpa using hcb)
        simp [pairLeB, this ▸ hab]
  · by_cases hba : strLt b.1 a.1
    · simp [pairLeB, hab, hba] at h1
    · have hab' : a.1 = b.1 := strEq_of_not_lt (by simpa using hab) (by simpa using hba)
      simp [pairLeB, hab, hba] at h1
      by_cases hbc : strLt b.1 c.1
      · simp [pairLeB, hab' ▸ hbc]
      · by_cases hcb : strLt c.1 b.1
        · simp [pairLeB, hbc, hcb] at h2
        · simp [pairLeB, hbc, hcb] at h2
          have hbc' : b.1 = c.1 := strEq_of_not_lt (by simpa using hbc) (by simpa using hcb)
          have hac : a.1 = c.1 := hab'.trans hbc'
          have h1' : strLt a.1 c.1 = false := by rw [hac]; simp [strLt, ltList_irrefl]
          have h2' : strLt c.1 a.1 = false := by rw [hac]; simp [strLt, ltList_irrefl]
          simp [pairLeB, h1', h2', strLe, leList_trans _ _ _ h1 h2]

instance : IsTotal (String × String) qleR := ⟨pairLe_total⟩

instance : IsTrans (String × String) qleR := ⟨pairLe_trans⟩

theorem strBytes_empty : strBytes "" = [] := rfl

set_option maxRecDepth 10000 in
theorem sha256hex_nil :
    sha256hex [] = "e3b0c44298fc1c149afbf4c8996fb92427ae41e4649b934ca495991b7852b855" := by
  decide

set_option maxRecDepth 10000 in
theorem sha256hex_abc :
    sha256hex (strBytes "abc") =
      "ba7816bf8f01cfea414140de5dae2223b00361a396177a9cb410ff61f20015ad" := by
  decide

set_option maxRecDepth 10000 in
theorem specSigningKey_aws_vector :
    hexOfBytes (specSigningKey "wJalrXUtnFEMI/K7MDENG+bPxRfiCYEXAMPLEKEY" "20150830"
      "us-east-1" "iam") =
      "c4afb1cc5771d871763a393e44b703571b55cc28424d1a5e86da6ed3c154a4b9" := by
  decide

theorem sha256_length (m : List Nat) : (sha256 m).length = 32 := by
  simp [sha256, wordBytes]

theorem hmacSha256_length (k m : List Nat) : (hmacSha256 k m).length = 32 := by
  simp [hmacSha256, sha256_length]

theorem hexFoldr_length (l : List Nat) :
    (l.foldr (fun b acc => hexByte b ++ acc) []).length = 2 * l.length := by
  induction l with
  | nil => rfl
  | cons b rest ih =>
    rw [List.foldr_cons, List.length_append, ih]
    simp [hexByte]
    omega

theorem hexOfBytes_length (l : List Nat) : (hexOfBytes l).length = 2 * l.length := by
  simp [hexOfBytes, String.length, hexFoldr_length]

theorem hexDigit_mem : ∀ n, n < 16 → hexDigit n ∈ ("0123456789abcdef").data := by decide

theorem mem_hexOfBytes (l : List Nat) (c : Char) (h : c ∈ (hexOfBytes l).data) :
    c ∈ ("0123456789abcdef").data := by
  induction l with
  | nil => simp [hexOfBytes] at h
  | cons b rest ih =>
    simp only [hexOfBytes, List.foldr] at h
    rcases List.mem_append.mp h with h' | h'
    · simp only [hexByte, List.mem_cons] at h'
      rcases h' with rfl | h'
      · exact hexDigit_mem _ (Nat.mod_lt _ (by omega))
      · rcases h' with rfl | h'
        · exact hexDigit_mem _ (Nat.mod_lt _ (by omega))
        · simp at h'
    · exact ih h'

theorem hLookup_hSet (hs : List (String × String)) (n v m : String) :
    hLookup (hSet hs n v) m =
      if lowerStr m = lowerStr n then some v else hLookup hs m := by
  induction hs with
  | nil =>
    simp only [hSet, hLookup]
    by_cases h : lowerStr m = lowerStr n
    · rw [if_pos h, List.find?_cons_of_pos _ (by simp [h])]
      rfl
    · have h' : ¬ lowerStr n = lowerStr m := fun he => h he.symm
      rw [if_neg h, List.find?_cons_of_neg _ (by simp [h'])]
  | cons p rest ih =>
    simp only [hSet]
    by_cases hp : lowerStr p.1 = lowerStr n
    · rw [if_pos (by simp [hp])]
      by_cases hm : lowerStr m = lowerStr n
      · simp only [hLookup]
        rw [if_pos hm, List.find?_cons_of_pos _ (by simp [hm])]
        rfl
      · have hnm : ¬ lowerStr n = lowerStr m := fun he => hm he.symm
        have hpm : ¬ lowerStr p.1 = lowerStr m := fun he => hm (he.symm.trans hp)
        simp only [hLookup]
        rw [if_neg hm, List.find?_cons_of_neg _ (by simp [hnm]),
          List.find?_cons_of_neg _ (by simp [hpm])]
    · rw [if_neg (by simp [hp])]
      simp only [hLookup] at ih ⊢
      by_cases hpm : lowerStr p.1 = lowerStr m
      · have hmn : ¬ lowerStr m = lowerStr n := fun he => hp (hpm.trans he)
        rw [if_neg hmn, List.find?_cons_of_pos _ (by simp [hpm]),
          List.find?_cons_of_pos _ (by simp [hpm])]
      · rw [List.find?_cons_of_neg _ (by simp [hpm]), ih]
        by_cases hmn : lowerStr m = lowerStr n
        · rw [if_pos hmn, if_pos hmn]
        · rw [if_neg hmn, if_neg hmn, List.find?_cons_of_neg _ (by simp [hpm])]

theorem hLookup_hSetIf (c : Prop) [Decidable c] (hs : List (String × String))
    (n v m : String) (hne : ¬ lowerStr m = lowerStr n) :
    hLookup (if c then hs else hSet hs n v) m = hLookup hs m := by
  split
  · rfl
  · rw [hLookup_hSet, if_neg hne]

theorem exists_lower_of_hLookup (hs : List (String × String)) (m v : String)
    (h : hLookup hs m = some v) : ∃ p ∈ hs, lowerStr p.1 = lowerStr m := by
  simp only [hLookup] at h
  cases hf : hs.find? (fun p => lowerStr p.1 == lowerStr m) with
  | none => rw [hf] at h; simp at h
  | some p =>
    refine ⟨p, List.mem_of_find?_eq_some hf, ?_⟩
    have := List.find?_some hf
    exact beq_iff_eq.mp this

theorem pairOf_eq_none (c : String) (h : (pySplit '=' c).length ≠ 2) :
    pairOf c = none := by
  unfold pairOf
  cases hs : pySplit '=' c with
  | nil => rfl
  | cons a t =>
    cases t with
    | nil => rfl
    | cons b t2 =>
      cases t2 with
      | nil => rw [hs] at h; simp at h
      | cons d t3 => rfl

theorem pairsOf_eq_none (cs : List String) (c : String) (hc : c ∈ cs)
    (hbad : pairOf c = none) : pairsOf cs = none := by
  induction cs with
  | nil => simp at hc
  | cons c0 rest ih =>
    rcases List.mem_cons.mp hc with rfl | hmem
    · simp [pairsOf, hbad]
    · simp only [pairsOf, ih hmem]
      cases pairOf c0 <;> rfl

theorem qlookup_pyDictInsert (acc : List (String × String)) (p : String × String)
    (n : String) :
    qlookup (pyDictInsert acc p) n = if p.1 = n then some p.2 else qlookup acc n := by
  induction acc with
  | nil =>
    simp only [pyDictInsert, qlookup]
    by_cases h : p.1 = n
    · rw [if_pos h, List.find?_cons_of_pos _ (by simp [h])]
      rfl
    · rw [if_neg h, List.find?_cons_of_neg _ (by simp [h])]
  | cons q rest ih =>
    simp only [pyDictInsert]
    by_cases hq : q.1 = p.1
    · rw [if_pos (by simp [hq])]
      simp only [qlookup]
      by_cases hn : p.1 = n
      · rw [if_pos hn, List.find?_cons_of_pos _ (by simp [hn])]
        rfl
      · have hqn : ¬ q.1 = n := fun he => hn (hq ▸ he)
        rw [if_neg hn, List.find?_cons_of_neg _ (by simp [hn]),
          List.find?_cons_of_neg _ (by simp [hqn])]
    · rw [if_neg (by simp [hq])]
      simp only [qlookup] at ih ⊢
      by_cases hqn : q.1 = n
      · have hpn : ¬ p.1 = n := fun he => hq (hqn ▸ he ▸ rfl)
        rw [if_neg hpn, List.find?_cons_of_pos _ (by simp [hqn]),
          List.find?_cons_of_pos _ (by simp [hqn])]
      · rw [List.find?_cons_of_neg _ (by simp [hqn]), ih]
        by_cases hpn : p.1 = n
        · rw [if_pos hpn, if_pos hpn]
        · rw [if_neg hpn, if_neg hpn, List.find?_cons_of_neg _ (by simp [hqn])]

theorem qlookup_foldl (ps : List (String × String)) (acc : List (String × String))
    (n : String) :
    qlookup (ps.foldl pyDictInsert acc) n =
      (match lastVal ps n with
       | some v => some v
       | none => qlookup acc n) := by
  induction ps generalizing acc with
  | nil => rfl
  | cons p rest ih =>
    rw [List.foldl_cons, ih]
    simp only [lastVal]
    cases lastVal rest n with
    | some v => rfl
    | none =>
      rw [qlookup_pyDictInsert]
      by_cases h : p.1 = n
      · rw [if_pos h, if_pos (by simp [h])]
      · rw [if_neg h, if_neg (by simp [h])]

theorem qlookup_pyDict (ps : List (String × String)) (n : String) :
    qlookup (pyDict ps) n = lastVal ps n := by
  rw [pyDict, qlookup_foldl]
  cases h : lastVal ps n with
  | some v => rfl
  | none => simp [qlookup]

theorem keys_pyDictInsert (acc : List (String × String)) (p : String × String) :
    (pyDictInsert acc p).map Prod.fst =
      if p.1 ∈ acc.map Prod.fst then acc.map Prod.fst
      else acc.map Prod.fst ++ [p.1] := by
  induction acc with
  | nil => simp [pyDictInsert]
  | cons q rest ih =>
    simp only [pyDictInsert]
    by_cases hq : q.1 = p.1
    · rw [if_pos (by simp [hq])]
      have : p.1 ∈ (q :: rest).map Prod.fst := by simp [hq.symm]
      rw [if_pos this]
      simp [hq]
    · rw [if_neg (by simp [hq])]
      by_cases hmem : p.1 ∈ rest.map Prod.fst
      · have : p.1 ∈ (q :: rest).map Prod.fst := by simp [hmem]
        rw [if_pos this]
        simp [ih, hmem]
      · have hne : ¬ p.1 = q.1 := fun he => hq he.symm
        have : ¬ p.1 ∈ (q :: rest).map Prod.fst := by simp [hmem, hne]
        rw [if_neg this]
        simp [ih, hmem]

theorem nodup_keys_pyDictInsert (acc : List (String × String)) (p : String × String)
    (h : (acc.map Prod.fst).Nodup) : ((pyDictInsert acc p).map Prod.fst).Nodup := by
  rw [keys_pyDictInsert]
  by_cases hmem : p.1 ∈ acc.map Prod.fst
  · rw [if_pos hmem]; exact h
  · rw [if_neg hmem]
    simp [List.nodup_append, h, hmem]

theorem nodup_keys_foldl (ps : List (String × String)) (acc : List (String × String))
    (h : (acc.map Prod.fst).Nodup) :
    ((ps.foldl pyDictInsert acc).map Prod.fst).Nodup := by
  induction ps generalizing acc with
  | nil => exact h
  | cons p rest ih => exact ih _ (nodup_keys_pyDictInsert _ _ h)

theorem nodup_keys_pyDict (ps : List (String × String)) :
    ((pyDict ps).map Prod.fst).Nodup :=
  nodup_keys_foldl ps [] (by simp)

theorem mem_iff_qlookup (l : List (String × String)) (hn : (l.map Prod.fst).Nodup)
    (n v : String) : (n, v) ∈ l ↔ qlookup l n = some v := by
  induction l with
  | nil => simp [qlookup]
  | cons p rest ih =>
    rw [List.map_cons, List.nodup_cons] at hn
    by_cases hpn : p.1 = n
    · have hnot : ¬ (n, v) ∈ rest := fun hmem =>
        hn.1 (hpn ▸ (List.mem_map.mpr ⟨(n, v), hmem, rfl⟩))
      simp only [qlookup]
      rw [List.find?_cons_of_pos _ (by simp [hpn])]
      constructor
      · intro hmem
        rcases List.mem_cons.mp hmem with he | hmem'
        · rw [← he] at hpn ⊢
          simp
        · exact absurd hmem' hnot
      · intro he
        have : p.2 = v := by simpa using he
        have hp : p = (n, v) := Prod.ext hpn this
        exact hp ▸ List.mem_cons_self p rest
    · simp only [qlookup]
      rw [List.find?_cons_of_neg _ (by simp [hpn])]
      rw [List.mem_cons]
      constructor
      · intro h
        rcases h with he | hmem'
        · exact absurd (congrArg Prod.fst he).symm hpn
        · exact (ih hn.2 ).mp hmem'
      · intro h
        exact Or.inr ((ih hn.2).mpr h)

theorem mem_headers_to_sign (hs : List (String × String)) (h : String) :
    h ∈ headers_to_sign hs ↔
      (∃ p ∈ hs, lowerStr p.1 = h) ∧ (strStarts h "x-amz-" || h == "host") = true := by
  rw [headers_to_sign, (List.perm_insertionSort strLeR _).mem_iff]
  rw [selectedHeaderNames, List.mem_filter, List.mem_map]

theorem nodup_headers_to_sign (hs : List (String × String)) (hn : ciNodup hs) :
    (headers_to_sign hs).Nodup := by
  rw [headers_to_sign, (List.perm_insertionSort strLeR _).nodup_iff]
  exact List.Nodup.filter _ hn

theorem sorted_headers_to_sign (hs : List (String × String)) :
    List.Sorted strLeR (headers_to_sign hs) :=
  List.sorted_insertionSort strLeR _

theorem sorted_sortedQuery (ps : List (String × String)) :
    List.Sorted qleR (sortedQuery ps) :=
  List.sorted_insertionSort qleR _

theorem nodup_keys_sortedQuery (ps : List (String × String)) :
    ((sortedQuery ps).map Prod.fst).Nodup := by
  have hperm : List.Perm ((sortedQuery ps).map Prod.fst) ((pyDict ps).map Prod.fst) :=
    (List.perm_insertionSort qleR _).map Prod.fst
  exact hperm.nodup_iff.mpr (nodup_keys_pyDict ps)

theorem mem_sortedQuery (ps : List (String × String)) (n v : String) :
    (n, v) ∈ sortedQuery ps ↔ lastVal ps n = some v := by
  rw [sortedQuery, (List.perm_insertionSort qleR _).mem_iff]
  rw [mem_iff_qlookup _ (nodup_keys_pyDict ps), qlookup_pyDict]

theorem parseQuery_empty : parseQuery "" = some [] := rfl

theorem canonical_query_string_eq (q : String) (ps : List (String × String))
    (h : parseQuery q = some ps) :
    canonical_query_string q = some (joinPairs (sortedQuery ps)) := by
  rw [canonical_query_string, h]
  rfl

/-! ## Claim theorems -/

/-- Claim C3: for every signing call, the signature is computed by the
four-step chained HMAC-SHA256 key derivation kDate, kRegion, kService,
kSigning — each step keyed by the prior result over a UTF-8-encoded
message — and the final signature equals HMAC(kSigning, stringToSign),
hex-encoded in lowercase (64 lowercase hexadecimal characters). -/
theorem claim_C3_theorem (secret datestamp region service sts : String) :
    signatureOf secret datestamp region service sts =
      specSignature secret datestamp region service sts ∧
    (signatureOf secret datestamp region service sts).length = 64 ∧
    ∀ c ∈ (signatureOf secret datestamp region service sts).data,
      c ∈ ("0123456789abcdef").data := by
  refine ⟨rfl, ?_, ?_⟩
  · show (hexOfBytes (hmacSha256 _ _)).length = 64
    rw [hexOfBytes_length, hmacSha256_length]
  · intro c hc
    exact mem_hexOfBytes _ c hc

/-- Claim C4: for every GET request and every request whose body is empty or
absent, the payload hash is the hex-encoded SHA-256 of the empty byte string
(e3b0c4...b855); in particular a GET request and a POST request with an
empty body hash identically, and no placeholder string is ever hashed. -/
theorem claim_C4_theorem (method : String) (body : Option (List Nat))
    (h : method = "GET" ∨ body = none ∨ body = some []) :
    payload_hash method body =
      "e3b0c44298fc1c149afbf4c8996fb92427ae41e4649b934ca495991b7852b855" := by
  have he : sha256hex (strBytes "") =
      "e3b0c44298fc1c149afbf4c8996fb92427ae41e4649b934ca495991b7852b855" := by
    rw [strBytes_empty]; exact sha256hex_nil
  rcases h with rfl | rfl | rfl
  · simp [payload_hash, he]
  · by_cases hm : (method == "GET") = true
    · simp [payload_hash, hm, he]
    · simp [payload_hash, hm, sha256hex_nil]
  · by_cases hm : (method == "GET") = true
    · simp [payload_hash, hm, he]
    · simp [payload_hash, hm, sha256hex_nil]

/-- Claim C4 witness: a GET request with a body, a POST with an empty body
and a POST with no body all hash to the empty-string SHA-256. -/
theorem claim_C4_witness :
    payload_hash "GET" (some [104, 105]) =
      "e3b0c44298fc1c149afbf4c8996fb92427ae41e4649b934ca495991b7852b855" ∧
    payload_hash "POST" (some []) =
      "e3b0c44298fc1c149afbf4c8996fb92427ae41e4649b934ca495991b7852b855" ∧
    payload_hash "POST" none =
      "e3b0c44298fc1c149afbf4c8996fb92427ae41e4649b934ca495991b7852b855" :=
  ⟨claim_C4_theorem _ _ (Or.inl rfl), claim_C4_theorem _ _ (Or.inr (Or.inr rfl)),
   claim_C4_theorem _ _ (Or.inr (Or.inl rfl))⟩

/-- Claim C5: construction of the signer with a missing (None) access key
id, secret access key, or region raises immediately, and construction with
all three present (truthy key and secret, any provided region) succeeds. -/
theorem claim_C5_theorem :
    (∀ service region tok sec, ∃ e,
      AWSSigV4.mk? service region none tok sec = Except.error e) ∧
    (∀ service region key tok, ∃ e,
      AWSSigV4.mk? service region key tok none = Except.error e) ∧
    (∀ service key tok sec, ∃ e,
      AWSSigV4.mk? service none key tok sec = Except.error e) ∧
    (∀ service r k t s, k ≠ "" → s ≠ "" → ∃ st,
      AWSSigV4.mk? service (some r) (some k) t (some s) = Except.ok st) := by
  refine ⟨?_, ?_, ?_, ?_⟩
  · intro service region tok sec
    exact ⟨"AWS Access Key ID and Secret Access Key are required.",
      by simp [AWSSigV4.mk?, optFalsy]⟩
  · intro service region key tok
    exact ⟨"AWS Access Key ID and Secret Access Key are required.",
      by simp [AWSSigV4.mk?, optFalsy]⟩
  · intro service key tok sec
    cases hb : optFalsy key || optFalsy sec
    · exact ⟨"Region is required.", by simp [AWSSigV4.mk?, hb]⟩
    · exact ⟨"AWS Access Key ID and Secret Access Key are required.",
        by simp [AWSSigV4.mk?, hb]⟩
  · intro service r k t s hk hs
    have h1 : optFalsy (some k) = false := beq_eq_false_iff_ne.mpr hk
    have h2 : optFalsy (some s) = false := beq_eq_false_iff_ne.mpr hs
    exact ⟨⟨service, r, k, t, s⟩, by simp [AWSSigV4.mk?, h1, h2]⟩

/-- Claim C5 witness: each missing credential is rejected at a concrete
input, and a fully supplied construction succeeds. -/
theorem claim_C5_witness :
    (∃ e, AWSSigV4.mk? "execute-api" (some "us-east-1") none none (some "SECRET") =
      Except.error e) ∧
    (∃ e, AWSSigV4.mk? "execute-api" (some "us-east-1") (some "AKID") none none =
      Except.error e) ∧
    (∃ e, AWSSigV4.mk? "execute-api" none (some "AKID") none (some "SECRET") =
      Except.error e) ∧
    (∃ st, AWSSigV4.mk? "execute-api" (some "us-east-1") (some "AKID") none (some "SECRET") =
      Except.ok st) :=
  ⟨claim_C5_theorem.1 _ _ _ _, claim_C5_theorem.2.1 _ _ _ _, claim_C5_theorem.2.2.1 _ _ _ _,
   claim_C5_theorem.2.2.2 _ _ _ _ _ (by decide) (by decide)⟩

/-- Claim C9: for every request whose non-empty query string has a component
that does not split into exactly one name and one value at the equals sign,
the signing call dies in the dict constructor instead of producing a signed
request. -/
theorem claim_C9_theorem (st : SigV4State) (amzdate datestamp : String) (req : Request)
    (hq : req.query ≠ "")
    (hbad : ∃ c ∈ pySplit '&' req.query, (pySplit '=' c).length ≠ 2) :
    signCall st amzdate datestamp req = none := by
  obtain ⟨c, hc, hlen⟩ := hbad
  have hpos : req.query.length > 0 := by
    rcases Nat.eq_zero_or_pos req.query.length with h0 | h0
    · exact absurd (String.ext (List.length_eq_zero.mp h0)) hq
    · exact h0
  have hnone : parseQuery req.query = none := by
    rw [parseQuery, if_pos hpos]
    exact pairsOf_eq_none _ c hc (pairOf_eq_none c hlen)
  have hcq : canonical_query_string req.query = none := by
    rw [canonical_query_string, hnone]; rfl
  rw [signCall, hcq]

/-- Claim C9 witness: a query whose NextToken value carries base64 padding
(two extra equals signs) makes the concrete signing call fail. -/
theorem claim_C9_witness :
    signCall ⟨"execute-api", "us-east-1", "AKID", none, "SECRET"⟩ "20210101T000000Z"
      "20210101" ⟨"GET", "example.com", "/orders", "NextToken=abc==", [], none⟩ = none :=
  claim_C9_theorem _ _ _ _ (by decide) (by decide)

/-- Claim C10: signer construction validates the region only against None:
an empty-string region is accepted (and then flows into the credential
scope, which collapses to date//service/aws4_request, and into the key
derivation), while an empty-string access key id or secret access key is
rejected. -/
theorem claim_C10_theorem :
    (∀ service t k s, k ≠ "" → s ≠ "" →
      ∃ st, AWSSigV4.mk? service (some "") (some k) t (some s) = Except.ok st ∧
        st.region = "" ∧
        (∀ ds, credential_scope ds st.region st.service =
          ds ++ "//" ++ service ++ "/aws4_request") ∧
        (∀ ds sts, signatureOf st.aws_secret_access_key ds st.region st.service sts =
          signatureOf s ds "" service sts)) ∧
    (∀ service region t s, ∃ e,
      AWSSigV4.mk? service region (some "") t s = Except.error e) ∧
    (∀ service region k t, ∃ e,
      AWSSigV4.mk? service region k t (some "") = Except.error e) := by
  refine ⟨?_, ?_, ?_⟩
  · intro service t k s hk hs
    have h1 : optFalsy (some k) = false := beq_eq_false_iff_ne.mpr hk
    have h2 : optFalsy (some s) = false := beq_eq_false_iff_ne.mpr hs
    refine ⟨⟨service, "", k, t, s⟩, by simp [AWSSigV4.mk?, h1, h2], rfl, ?_, ?_⟩
    · intro ds
      rw [credential_scope, String.append_empty, String.append_assoc ds "/" "/",
        (show ("/" : String) ++ "/" = "//" from rfl)]
    · intro ds sts
      rfl
  · intro service region t s
    exact ⟨"AWS Access Key ID and Secret Access Key are required.",
      by simp [AWSSigV4.mk?, optFalsy]⟩
  · intro service region k t
    exact ⟨"AWS Access Key ID and Secret Access Key are required.",
      by simp [AWSSigV4.mk?, optFalsy]⟩

/-- Claim C10 witness: concrete constructions showing the empty region
accepted with its collapsed scope, and empty key or secret rejected. -/
theorem claim_C10_witness :
    (∃ st, AWSSigV4.mk? "execute-api" (some "") (some "AKID") none (some "SECRET") =
      Except.ok st ∧ st.region = "" ∧
      (∀ ds, credential_scope ds st.region st.service =
        ds ++ "//" ++ "execute-api" ++ "/aws4_request") ∧
      (∀ ds sts, signatureOf st.aws_secret_access_key ds st.region st.service sts =
        signatureOf "SECRET" ds "" "execute-api" sts)) ∧
    (∃ e, AWSSigV4.mk? "execute-api" (some "us-east-1") (some "") none (some "SECRET") =
      Except.error e) ∧
    (∃ e, AWSSigV4.mk? "execute-api" (some "us-east-1") (some "AKID") none (some "") =
      Except.error e) :=
  ⟨claim_C10_theorem.1 "execute-api" none "AKID" "SECRET" (by decide) (by decide),
   claim_C10_theorem.2.1 _ _ _ _, claim_C10_theorem.2.2 _ _ _ _⟩

/-- Claim C1 (amended): the canonical query string is built by splitting the
raw URL query at the ampersand and each component at the equals sign, the
names and values used verbatim (the signer applies no percent-encoding of
its own), duplicate names collapsed so that only the last occurrence's value
survives, the surviving pairs sorted ascending by code point (name first,
value breaking ties), and joined as name=value pairs; an empty query yields
the empty string. -/
theorem claim_C1_theorem (q : String) (ps : List (String × String))
    (h : parseQuery q = some ps) :
    canonical_query_string q = some (joinPairs (sortedQuery ps)) ∧
    List.Sorted qleR (sortedQuery ps) ∧
    ((sortedQuery ps).map Prod.fst).Nodup ∧
    (∀ n v, (n, v) ∈ sortedQuery ps ↔ lastVal ps n = some v) ∧
    (q = "" → canonical_query_string q = some "") := by
  refine ⟨canonical_query_string_eq q ps h, sorted_sortedQuery ps, nodup_keys_sortedQuery ps,
    mem_sortedQuery ps, ?_⟩
  rintro rfl
  rfl

/-- Claim C1 witness: the spec's own example, parameters b=2 and a=1
canonicalize sorted by name, deduplicated and joined. -/
theorem claim_C1_witness :
    canonical_query_string "b=2&a=1" =
      some (joinPairs (sortedQuery [("b", "2"), ("a", "1")])) ∧
    List.Sorted qleR (sortedQuery [("b", "2"), ("a", "1")]) ∧
    ((sortedQuery [("b", "2"), ("a", "1")]).map Prod.fst).Nodup ∧
    (∀ n v, (n, v) ∈ sortedQuery [("b", "2"), ("a", "1")] ↔
      lastVal [("b", "2"), ("a", "1")] n = some v) ∧
    ("b=2&a=1" = "" → canonical_query_string "b=2&a=1" = some "") :=
  claim_C1_theorem "b=2&a=1" [("b", "2"), ("a", "1")] (by decide)

/-- Claim C1 counterexample: the code collapses the duplicate name a (only
the last value 2 survives, where the claim requires both entries), and it
leaves the space characters of the name b c and value d e untouched (where
the claim requires percent-encoding as b%20c and d%20e). -/
theorem claim_C1_counterexample :
    canonical_query_string "a=1&a=2&b c=d e" = some "a=2&b c=d e" ∧
    ("a=2&b c=d e" : String) ≠ "a=1&a=2&b%20c=d%20e" :=
  ⟨by decide, by decide⟩

/-- Claim C2 (amended): the canonical headers block is built from exactly
the headers whose lowercased name starts with x-amz- or equals host, sorted
lexicographically by lowercased name without duplicates, each selected
header contributing one line of lowercased name, a colon, and the header
value taken verbatim (the code does not trim it), followed by a newline
after every line including the last; the signed-headers string joins the
same sorted names with semicolons. -/
theorem claim_C2_theorem (hs : List (String × String)) (hn : ciNodup hs) :
    List.Sorted strLeR (headers_to_sign hs) ∧
    (headers_to_sign hs).Nodup ∧
    (∀ h, h ∈ headers_to_sign hs ↔
      (∃ p ∈ hs, lowerStr p.1 = h) ∧ (strStarts h "x-amz-" || h == "host") = true) ∧
    canonical_headers hs =
      joinWith "" ((headers_to_sign hs).map (fun h => h ++ ":" ++ hValue hs h ++ "\n")) ∧
    signed_headers hs = joinWith ";" (headers_to_sign hs) :=
  ⟨sorted_headers_to_sign hs, nodup_headers_to_sign hs hn, mem_headers_to_sign hs, rfl, rfl⟩

/-- Claim C2 witness: a concrete header map with Host, X-Amz-Date and
Content-Type entries satisfies the amended canonical-headers contract. -/
theorem claim_C2_witness :
    List.Sorted strLeR (headers_to_sign
      [("Host", "example.com"), ("X-Amz-Date", "20210101T000000Z"),
        ("Content-Type", "text/plain")]) ∧
    (headers_to_sign [("Host", "example.com"), ("X-Amz-Date", "20210101T000000Z"),
      ("Content-Type", "text/plain")]).Nodup ∧
    (∀ h, h ∈ headers_to_sign [("Host", "example.com"), ("X-Amz-Date", "20210101T000000Z"),
        ("Content-Type", "text/plain")] ↔
      (∃ p ∈ [("Host", "example.com"), ("X-Amz-Date", "20210101T000000Z"),
        ("Content-Type", "text/plain")], lowerStr p.1 = h) ∧
      (strStarts h "x-amz-" || h == "host") = true) ∧
    canonical_headers [("Host", "example.com"), ("X-Amz-Date", "20210101T000000Z"),
      ("Content-Type", "text/plain")] =
      joinWith "" ((headers_to_sign [("Host", "example.com"),
        ("X-Amz-Date", "20210101T000000Z"), ("Content-Type", "text/plain")]).map
        (fun h => h ++ ":" ++ hValue [("Host", "example.com"),
          ("X-Amz-Date", "20210101T000000Z"), ("Content-Type", "text/plain")] h ++ "\n")) ∧
    signed_headers [("Host", "example.com"), ("X-Amz-Date", "20210101T000000Z"),
      ("Content-Type", "text/plain")] =
      joinWith ";" (headers_to_sign [("Host", "example.com"),
        ("X-Amz-Date", "20210101T000000Z"), ("Content-Type", "text/plain")]) :=
  claim_C2_theorem _ (by unfold ciNodup; decide)

/-- Claim C2 counterexample: a header value carrying surrounding whitespace
is emitted untrimmed, where the claim requires the trimmed value. -/
theorem claim_C2_counterexample :
    canonical_headers [("X-Amz-Meta", " v ")] = "x-amz-meta: v \n" ∧
    ("x-amz-meta: v \n" : String) ≠ "x-amz-meta:v\n" :=
  ⟨by decide, by decide⟩

/-- Claim C7 (amended): the canonical request uses the URL path verbatim:
an empty URI path stays the empty string (the method line is immediately
followed by an empty line), and no substitution by a slash takes place —
the two canonical requests necessarily differ. -/
theorem claim_C7_theorem (st : SigV4State) (amzdate : String) (req : Request)
    (cqs : String) (hpath : req.path = "")
    (hq : canonical_query_string req.query = some cqs) :
    canonicalRequestOf st amzdate req =
      some (req.method ++ "\n" ++ "\n" ++ cqs ++ "\n" ++
        canonical_headers (mutatedHeaders st amzdate req) ++ "\n" ++
        signed_headers (mutatedHeaders st amzdate req) ++ "\n" ++
        payload_hash req.method req.body) ∧
    (∀ m q c s p, canonical_request m "" q c s p ≠ canonical_request m "/" q c s p) := by
  constructor
  · rw [canonicalRequestOf, hq]
    simp only [Option.map_some']
    rw [canonical_request, hpath, String.append_empty]
  · intro m q c s p heq
    have hlen := congrArg String.length heq
    rw [canonical_request, canonical_request] at hlen
    simp only [String.length_append] at hlen
    have h0 : ("" : String).length = 0 := rfl
    have h1 : ("/" : String).length = 1 := rfl
    rw [h0, h1] at hlen
    omega

/-- Claim C7 witness: a concrete GET request with an empty path and empty
query produces the canonical request with an empty path line. -/
theorem claim_C7_witness :
    canonicalRequestOf ⟨"execute-api", "us-east-1", "AKID", none, "SECRET"⟩
        "20210101T000000Z" ⟨"GET", "example.com", "", "", [], none⟩ =
      some ("GET" ++ "\n" ++ "\n" ++ "" ++ "\n" ++
        canonical_headers (mutatedHeaders ⟨"execute-api", "us-east-1", "AKID", none, "SECRET"⟩
          "20210101T000000Z" ⟨"GET", "example.com", "", "", [], none⟩) ++ "\n" ++
        signed_headers (mutatedHeaders ⟨"execute-api", "us-east-1", "AKID", none, "SECRET"⟩
          "20210101T000000Z" ⟨"GET", "example.com", "", "", [], none⟩) ++ "\n" ++
        payload_hash "GET" none) ∧
    (∀ m q c s p, canonical_request m "" q c s p ≠ canonical_request m "/" q c s p) :=
  claim_C7_theorem _ _ _ "" rfl rfl

set_option maxRecDepth 10000 in
/-- Claim C7 counterexample: on a request whose URI path is empty, the
canonical request keeps the empty path component (the GET line is followed
by an empty line), not the slash the claim requires. -/
theorem claim_C7_counterexample :
    canonicalRequestOf ⟨"execute-api", "us-east-1", "AKID", none, "SECRET"⟩
        "20210101T000000Z" ⟨"GET", "example.com", "", "", [], none⟩ =
      some "GET\n\n\nhost:example.com\nx-amz-content-sha256:e3b0c44298fc1c149afbf4c8996fb92427ae41e4649b934ca495991b7852b855\nx-amz-date:20210101T000000Z\n\nhost;x-amz-content-sha256;x-amz-date\ne3b0c44298fc1c149afbf4c8996fb92427ae41e4649b934ca495991b7852b855" ∧
    ("GET\n\n\nhost:example.com\nx-amz-content-sha256:e3b0c44298fc1c149afbf4c8996fb92427ae41e4649b934ca495991b7852b855\nx-amz-date:20210101T000000Z\n\nhost;x-amz-content-sha256;x-amz-date\ne3b0c44298fc1c149afbf4c8996fb92427ae41e4649b934ca495991b7852b855" : String) ≠
      "GET\n/\n\nhost:example.com\nx-amz-content-sha256:e3b0c44298fc1c149afbf4c8996fb92427ae41e4649b934ca495991b7852b855\nx-amz-date:20210101T000000Z\n\nhost;x-amz-content-sha256;x-amz-date\ne3b0c44298fc1c149afbf4c8996fb92427ae41e4649b934ca495991b7852b855" :=
  ⟨by decide, by decide⟩

/-- Claim C6: signing is deterministic: with identical inputs and the
identical captured timestamp the signing function yields the identical
Authorization value, and whenever the query parses, the Authorization header
is present and fully determined by the inputs. -/
theorem claim_C6_theorem :
    (∀ (st : SigV4State) (amzdate datestamp : String) (req : Request),
      (signCall st amzdate datestamp req).map (fun r => hLookup r.headers "Authorization") =
        (signCall st amzdate datestamp req).map
          (fun r => hLookup r.headers "Authorization")) ∧
    (∀ (st : SigV4State) (amzdate datestamp : String) (req : Request)
      (ps : List (String × String)), parseQuery req.query = some ps →
      ∃ r', signCall st amzdate datestamp req = some r' ∧
        hLookup r'.headers "Authorization" =
          some ("AWS4-HMAC-SHA256 Credential=" ++ st.aws_access_key_id ++ "/" ++
            credential_scope datestamp st.region st.service ++ ", SignedHeaders=" ++
            signed_headers (mutatedHeaders st amzdate req) ++ ", Signature=" ++
            signatureOf st.aws_secret_access_key datestamp st.region st.service
              (string_to_sign amzdate (credential_scope datestamp st.region st.service)
                (canonical_request req.method req.path (joinPairs (sortedQuery ps))
                  (canonical_headers (mutatedHeaders st amzdate req))
                  (signed_headers (mutatedHeaders st amzdate req))
                  (payload_hash req.method req.body))))) := by
  constructor
  · intro st amzdate datestamp req
    rfl
  · intro st amzdate datestamp req ps hps
    have hq := canonical_query_string_eq req.query ps hps
    refine ⟨_, by rw [signCall, hq], ?_⟩
    show hLookup (hSet (mutatedHeaders st amzdate req) "Authorization" _) "Authorization" =
      _
    rw [hLookup_hSet, if_pos rfl]

/-- Claim C6 witness: on a concrete request the Authorization header is
present and equals the stated deterministic value. -/
theorem claim_C6_witness :
    ∃ r', signCall ⟨"execute-api", "us-east-1", "AKID", none, "SECRET"⟩ "20210101T000000Z"
        "20210101" ⟨"GET", "example.com", "/orders", "", [], none⟩ = some r' ∧
      hLookup r'.headers "Authorization" =
        some ("AWS4-HMAC-SHA256 Credential=" ++ "AKID" ++ "/" ++
          credential_scope "20210101" "us-east-1" "execute-api" ++ ", SignedHeaders=" ++
          signed_headers (mutatedHeaders ⟨"execute-api", "us-east-1", "AKID", none, "SECRET"⟩
            "20210101T000000Z" ⟨"GET", "example.com", "/orders", "", [], none⟩) ++
          ", Signature=" ++
          signatureOf "SECRET" "20210101" "us-east-1" "execute-api"
            (string_to_sign "20210101T000000Z"
              (credential_scope "20210101" "us-east-1" "execute-api")
              (canonical_request "GET" "/orders" (joinPairs (sortedQuery []))
                (canonical_headers (mutatedHeaders
                  ⟨"execute-api", "us-east-1", "AKID", none, "SECRET"⟩
                  "20210101T000000Z" ⟨"GET", "example.com", "/orders", "", [], none⟩))
                (signed_headers (mutatedHeaders
                  ⟨"execute-api", "us-east-1", "AKID", none, "SECRET"⟩
                  "20210101T000000Z" ⟨"GET", "example.com", "/orders", "", [], none⟩))
                (payload_hash "GET" none)))) :=
  claim_C6_theorem.2 _ _ _ _ [] rfl

theorem hLookup_mutated_token_pos (st : SigV4State) (amzdate : String) (req : Request)
    (t : String) (htok : st.aws_session_token = some t) (ht : t ≠ "") :
    hLookup (mutatedHeaders st amzdate req) "x-amz-security-token" = some t := by
  rw [mutatedHeaders, hLookup_hSet, if_neg (by decide)]
  simp only [setupHeaders, htok]
  rw [hLookup_hSet, if_neg (by decide)]
  rw [if_neg ht]
  rw [hLookup_hSet, if_pos rfl]

theorem hLookup_mutated_token_neg (st : SigV4State) (amzdate : String) (req : Request)
    (htok : st.aws_session_token = none ∨ st.aws_session_token = some "")
    (h0 : hLookup req.headers "x-amz-security-token" = none) :
    hLookup (mutatedHeaders st amzdate req) "x-amz-security-token" = none := by
  rw [mutatedHeaders, hLookup_hSet, if_neg (by decide)]
  rcases htok with h | h
  · simp only [setupHeaders, h]
    rw [hLookup_hSet, if_neg (by decide)]
    rw [hLookup_hSetIf _ _ "User-Agent" _ "x-amz-security-token" (by decide),
      hLookup_hSetIf _ _ "Content-Type" _ "x-amz-security-token" (by decide),
      hLookup_hSetIf _ _ "Host" _ "x-amz-security-token" (by decide)]
    exact h0
  · simp only [setupHeaders, h]
    rw [hLookup_hSet, if_neg (by decide)]
    rw [if_pos trivial]
    rw [hLookup_hSetIf _ _ "User-Agent" _ "x-amz-security-token" (by decide),
      hLookup_hSetIf _ _ "Content-Type" _ "x-amz-security-token" (by decide),
      hLookup_hSetIf _ _ "Host" _ "x-amz-security-token" (by decide)]
    exact h0

/-- Claim C8: when a non-empty session token was supplied at construction,
every signing call carries the header x-amz-security-token with the token's
value and the name appears in the signed-headers set; when the token is
absent (or empty) and the incoming request does not already carry the
header, the signed request has no x-amz-security-token header at all. -/
theorem claim_C8_theorem :
    (∀ (st : SigV4State) (amzdate datestamp : String) (req : Request) (t : String)
      (ps : List (String × String)),
      st.aws_session_token = some t → t ≠ "" → parseQuery req.query = some ps →
      ∃ r', signCall st amzdate datestamp req = some r' ∧
        hLookup r'.headers "x-amz-security-token" = some t ∧
        "x-amz-security-token" ∈ headers_to_sign (mutatedHeaders st amzdate req)) ∧
    (∀ (st : SigV4State) (amzdate datestamp : String) (req : Request)
      (ps : List (String × String)),
      (st.aws_session_token = none ∨ st.aws_session_token = some "") →
      hLookup req.headers "x-amz-security-token" = none →
      parseQuery req.query = some ps →
      ∃ r', signCall st amzdate datestamp req = some r' ∧
        hLookup r'.headers "x-amz-security-token" = none) := by
  constructor
  · intro st amzdate datestamp req t ps htok ht hps
    have hq := canonical_query_string_eq req.query ps hps
    refine ⟨_, by rw [signCall, hq], ?_, ?_⟩
    · show hLookup (hSet (mutatedHeaders st amzdate req) "Authorization" _)
        "x-amz-security-token" = some t
      rw [hLookup_hSet, if_neg (by decide)]
      exact hLookup_mutated_token_pos st amzdate req t htok ht
    · rw [mem_headers_to_sign]
      refine ⟨?_, by decide⟩
      obtain ⟨p, hp, he⟩ := exists_lower_of_hLookup _ _ _
        (hLookup_mutated_token_pos st amzdate req t htok ht)
      exact ⟨p, hp, he.trans (by decide)⟩
  · intro st amzdate datestamp req ps htok h0 hps
    have hq := canonical_query_string_eq req.query ps hps
    refine ⟨_, by rw [signCall, hq], ?_⟩
    show hLookup (hSet (mutatedHeaders st amzdate req) "Authorization" _)
      "x-amz-security-token" = none
    rw [hLookup_hSet, if_neg (by decide)]
    exact hLookup_mutated_token_neg st amzdate req htok h0

/-- Claim C8 witness: a concrete signer with a token adds and signs the
header, and one without a token leaves it absent. -/
theorem claim_C8_witness :
    (∃ r', signCall ⟨"execute-api", "us-east-1", "AKID", some "TOKEN", "SECRET"⟩
        "20210101T000000Z" "20210101" ⟨"GET", "example.com", "/orders", "", [], none⟩ =
        some r' ∧
      hLookup r'.headers "x-amz-security-token" = some "TOKEN" ∧
      "x-amz-security-token" ∈ headers_to_sign (mutatedHeaders
        ⟨"execute-api", "us-east-1", "AKID", some "TOKEN", "SECRET"⟩ "20210101T000000Z"
        ⟨"GET", "example.com", "/orders", "", [], none⟩)) ∧
    (∃ r', signCall ⟨"execute-api", "us-east-1", "AKID", none, "SECRET"⟩
        "20210101T000000Z" "20210101" ⟨"GET", "example.com", "/orders", "", [], none⟩ =
        some r' ∧
      hLookup r'.headers "x-amz-security-token" = none) :=
  ⟨claim_C8_theorem.1 _ _ _ _ "TOKEN" [] rfl (by decide) rfl,
   claim_C8_theorem.2 _ _ _ _ [] (Or.inl rfl) rfl rfl⟩
